import Mathlib

set_option maxRecDepth 4000

/-!
Shallow embedding of the moco-mcp aggregation core (time formatting,
activity aggregation, presence aggregation, holiday lookup fallback).

Numbers: the source runs on JS numbers; the spec's data model declares hours
to be non-negative rationals, so the embedding uses `ℚ` (exact arithmetic).
JS `Math.round` rounds half toward +∞ and `Math.floor` is the floor; both
are modelled exactly.  JS `Map` is modelled as an association list in
insertion order (`JsMap` below), matching `Map.prototype.set`/`get`.
A JS callback that can `throw` inside `Array.prototype.map` is modelled with
`Except`, and the presence pipeline (where a malformed time yields `NaN`,
poisoning the result rather than throwing) with `Option`: `none` stands for
the NaN-poisoned output.
-/

deriving instance DecidableEq for Except

namespace Moco

/-- JS `Math.round`: round half toward +∞, i.e. `⌊x + 1/2⌋`. -/
def jsRound (q : ℚ) : ℤ := ⌊q + 1 / 2⌋

/-- `roundHours` (src/utils/timeUtils.ts): `Math.round(hours * 100) / 100`. -/
def roundHours (hours : ℚ) : ℚ := (jsRound (hours * 100) : ℚ) / 100

/-- `sumHours` (src/utils/timeUtils.ts): `hours.reduce((t, c) => t + c, 0)`. -/
def sumHours (hours : List ℚ) : ℚ := hours.foldl (· + ·) 0

/-- JS `String.prototype.padStart(2, '0')`. -/
def padStart2 (s : String) : String :=
  String.mk (List.replicate (2 - s.length) '0') ++ s

/-- `formatHoursToHHMM` (src/utils/timeUtils.ts): converts decimal hours to
`H:MM`; throws (modelled as `Except.error`) on negative input. -/
def formatHoursToHHMM (hours : ℚ) : Except String String :=
  if hours < 0 then .error "Hours cannot be negative"
  else
    let wholeHours : ℤ := ⌊hours⌋
    let minutes : ℤ := jsRound ((hours - wholeHours) * 60)
    if minutes = 60 then .ok (toString (wholeHours + 1) ++ ":00")
    else .ok (toString wholeHours ++ ":" ++ padStart2 (toString minutes))

/-- `TimeFormat` (src/types/mocoTypes.ts): decimal hours paired with their
`H:MM` rendering. -/
structure TimeFormat where
  hours : ℚ
  hoursFormatted : String
deriving DecidableEq

/-- `createTimeFormat` (src/utils/timeUtils.ts): pairs `roundHours hours`
with `formatHoursToHHMM hours`; propagates the throw on negative input. -/
def createTimeFormat (hours : ℚ) : Except String TimeFormat := do
  let s ← formatHoursToHHMM hours
  pure ⟨roundHours hours, s⟩

/-- The clock-format algorithm exactly as the specification words it
(spec §4.1): floor to whole hours, round the remainder to minutes, carry
`minutes == 60` into the hour, then render `"{h}:{mm}"`.  Used only to state
the refinement claim against `formatHoursToHHMM`. -/
def toClockStringSpec (hours : ℚ) : String :=
  let wholeHours : ℤ := ⌊hours⌋
  let minutes : ℤ := jsRound ((hours - wholeHours) * 60)
  if minutes = 60 then toString (wholeHours + 1) ++ ":" ++ padStart2 (toString (0 : ℤ))
  else toString wholeHours ++ ":" ++ padStart2 (toString minutes)

/-- Insert a string into a ≤-sorted list of strings. -/
def insertSorted (x : String) : List String → List String
  | [] => [x]
  | y :: ys => if x ≤ y then x :: y :: ys else y :: insertSorted x ys

/-- Models `Array.from(map.keys()).sort()`: ascending lexicographic sort.
The keys sorted in the source are distinct, so any correct comparison sort
produces this result. -/
def sortStrings (l : List String) : List String := l.foldr insertSorted []

namespace JsMap

/-- JS `Map.prototype.get` over an insertion-ordered association list. -/
def get {K V : Type} [DecidableEq K] (m : List (K × V)) (k : K) : Option V :=
  (m.find? (fun p => p.1 = k)).map Prod.snd

/-- JS `Map.prototype.set`: overwrite in place if the key is present,
else append the new entry. -/
def set {K V : Type} [DecidableEq K] (m : List (K × V)) (k : K) (v : V) :
    List (K × V) :=
  if (get m k).isSome then m.map (fun p => if p.1 = k then (k, v) else p)
  else m ++ [(k, v)]

/-- JS `Array.from(map.keys())`. -/
def keys {K V : Type} (m : List (K × V)) : List K := m.map Prod.fst

end JsMap

/-- Models `array.map(f)` where the callback `f` may throw. -/
def mapME {α β : Type} (f : α → Except String β) : List α → Except String (List β)
  | [] => .ok []
  | a :: as => do
    let b ← f a
    let bs ← mapME f as
    pure (b :: bs)

/-- Models `array.map(f)` in the presence pipeline, where a malformed time
yields NaN; `none` stands for the NaN-poisoned result. -/
def mapMO {α β : Type} (f : α → Option β) : List α → Option (List β)
  | [] => some []
  | a :: as => do
    let b ← f a
    let bs ← mapMO f as
    pure (b :: bs)

/-- The per-date grouping loop shared by `aggregateActivities`
(src/tools/activitiesTools.ts lines 75-82) and `aggregatePresences`
(presence tools lines 66-73): build an insertion-ordered map from date to
the records carrying that date, appending each record to its date's list. -/
def groupStep {α : Type} (key : α → String) (m : List (String × List α)) (r : α) :
    List (String × List α) :=
  let m₁ := if (JsMap.get m (key r)).isSome then m else JsMap.set m (key r) []
  match JsMap.get m₁ (key r) with
  | none => m₁
  | some items => JsMap.set m₁ (key r) (items ++ [r])

/-- The grouping loop itself: fold `groupStep` over the records. -/
def groupByDate {α : Type} (key : α → String) (records : List α) :
    List (String × List α) :=
  records.foldl (groupStep key) []

/-- `Activity` (src/types/mocoTypes.ts), restricted to the fields the
aggregation reads: `date`, `hours`, `project.id`, `project.name`,
`task.id`, `task.name` (the nested objects are flattened). -/
structure Activity where
  date : String
  hours : ℚ
  projectId : ℤ
  projectName : String
  taskId : ℤ
  taskName : String
deriving DecidableEq

/-- `TaskActivitySummary` (src/types/mocoTypes.ts). -/
structure TaskActivitySummary where
  taskId : ℤ
  taskName : String
  hours : ℚ
  hoursFormatted : String
deriving DecidableEq

/-- `ProjectActivitySummary` (src/types/mocoTypes.ts). -/
structure ProjectActivitySummary where
  projectId : ℤ
  projectName : String
  tasks : List TaskActivitySummary
  projectTotal : TimeFormat
deriving DecidableEq

/-- `DailyActivitySummary` (src/types/mocoTypes.ts). -/
structure DailyActivitySummary where
  date : String
  projects : List ProjectActivitySummary
  dailyTotal : TimeFormat
deriving DecidableEq

/-- One task entry of `ActivityRangeSummary.projectTotals[*].tasks`
(src/types/mocoTypes.ts). -/
structure ProjectRangeTaskTotal where
  taskId : ℤ
  taskName : String
  total : TimeFormat
deriving DecidableEq

/-- One entry of `ActivityRangeSummary.projectTotals`
(src/types/mocoTypes.ts). -/
structure ProjectRangeTotal where
  projectId : ℤ
  projectName : String
  total : TimeFormat
  tasks : List ProjectRangeTaskTotal
deriving DecidableEq

/-- `ActivityRangeSummary` (src/types/mocoTypes.ts). -/
structure ActivityRangeSummary where
  startDate : String
  endDate : String
  dailySummaries : List DailyActivitySummary
  projectTotals : List ProjectRangeTotal
  grandTotal : TimeFormat
deriving DecidableEq

/-- Value type of the inner task map built by `createDailySummary`. -/
structure TaskAcc where
  taskName : String
  hours : ℚ
deriving DecidableEq

/-- Value type of the `projectsMap` built by `createDailySummary`. -/
structure ProjAcc where
  projectName : String
  tasks : List (ℤ × TaskAcc)
deriving DecidableEq

/-- Loop body of `createDailySummary` (src/tools/activitiesTools.ts lines
159-176): insert the project-level and task-level entries on first
encounter, then add the activity's hours to its task's running total. -/
def dailyStep (m : List (ℤ × ProjAcc)) (a : Activity) : List (ℤ × ProjAcc) :=
  let m₁ := if (JsMap.get m a.projectId).isSome then m
            else JsMap.set m a.projectId ⟨a.projectName, []⟩
  match JsMap.get m₁ a.projectId with
  | none => m₁
  | some project =>
    let tasks₁ := if (JsMap.get project.tasks a.taskId).isSome then project.tasks
                  else JsMap.set project.tasks a.taskId ⟨a.taskName, 0⟩
    match JsMap.get tasks₁ a.taskId with
    | none => m₁
    | some t =>
      JsMap.set m₁ a.projectId
        ⟨project.projectName, JsMap.set tasks₁ a.taskId ⟨t.taskName, t.hours + a.hours⟩⟩

/-- `createDailySummary` (src/tools/activitiesTools.ts lines 152-204):
group one day's activities by project and task, then convert the maps to
the structured summary, attaching `createTimeFormat` totals at every level. -/
def createDailySummary (date : String) (activities : List Activity) :
    Except String DailyActivitySummary := do
  let projectsMap := activities.foldl dailyStep []
  let projects ← mapME
    (fun pe => do
      let tasks ← mapME
        (fun te => do
          let tf ← createTimeFormat te.2.hours
          pure (⟨te.1, te.2.taskName, te.2.hours, tf.hoursFormatted⟩ : TaskActivitySummary))
        pe.2.tasks
      let projectTotal ← createTimeFormat (sumHours (tasks.map (·.hours)))
      pure (⟨pe.1, pe.2.projectName, tasks, projectTotal⟩ : ProjectActivitySummary))
    projectsMap
  let dailyTotal ← createTimeFormat (sumHours (projects.map (·.projectTotal.hours)))
  pure ⟨date, projects, dailyTotal⟩

/-- Value type of the inner task map of `projectTotalsMap` in
`aggregateActivities`. -/
structure RangeTaskAcc where
  taskName : String
  totalHours : ℚ
deriving DecidableEq

/-- Value type of `projectTotalsMap` in `aggregateActivities`. -/
structure RangeProjAcc where
  projectName : String
  totalHours : ℚ
  tasks : List (ℤ × RangeTaskAcc)
deriving DecidableEq

/-- Inner loop of the cross-day accumulation in `aggregateActivities`
(src/tools/activitiesTools.ts lines 113-121): add one task's daily hours to
its cross-day total. -/
def rangeTaskStep (tm : List (ℤ × RangeTaskAcc)) (task : TaskActivitySummary) :
    List (ℤ × RangeTaskAcc) :=
  let tm₁ := if (JsMap.get tm task.taskId).isSome then tm
             else JsMap.set tm task.taskId ⟨task.taskName, 0⟩
  match JsMap.get tm₁ task.taskId with
  | none => tm₁
  | some tt => JsMap.set tm₁ task.taskId ⟨tt.taskName, tt.totalHours + task.hours⟩

/-- Outer loop of the cross-day accumulation in `aggregateActivities`
(src/tools/activitiesTools.ts lines 101-122): add one day's project summary
into `projectTotalsMap`. -/
def rangeProjStep (m : List (ℤ × RangeProjAcc)) (project : ProjectActivitySummary) :
    List (ℤ × RangeProjAcc) :=
  let m₁ := if (JsMap.get m project.projectId).isSome then m
            else JsMap.set m project.projectId ⟨project.projectName, 0, []⟩
  match JsMap.get m₁ project.projectId with
  | none => m₁
  | some pt =>
    JsMap.set m₁ project.projectId
      ⟨pt.projectName, pt.totalHours + project.projectTotal.hours,
        project.tasks.foldl rangeTaskStep pt.tasks⟩

/-- `aggregateActivities` (src/tools/activitiesTools.ts lines 73-147):
group by date, build each day's summary in ascending date order, accumulate
cross-day project totals, and attach the grand total. -/
def aggregateActivities (activities : List Activity) (startDate endDate : String) :
    Except String ActivityRangeSummary := do
  let activitiesByDate := groupByDate Activity.date activities
  let sortedDates := sortStrings (JsMap.keys activitiesByDate)
  let dailySummaries ← mapME
    (fun date => createDailySummary date ((JsMap.get activitiesByDate date).getD []))
    sortedDates
  let projectTotalsMap := dailySummaries.foldl
    (fun m day => day.projects.foldl rangeProjStep m) []
  let projectTotals ← mapME
    (fun pe => do
      let total ← createTimeFormat pe.2.totalHours
      let tasks ← mapME
        (fun te => do
          let t ← createTimeFormat te.2.totalHours
          pure (⟨te.1, te.2.taskName, t⟩ : ProjectRangeTaskTotal))
        pe.2.tasks
      pure (⟨pe.1, pe.2.projectName, total, tasks⟩ : ProjectRangeTotal))
    projectTotalsMap
  let grandTotalHours := sumHours (dailySummaries.map (·.dailyTotal.hours))
  let grandTotal ← createTimeFormat grandTotalHours
  pure ⟨startDate, endDate, dailySummaries, projectTotals, grandTotal⟩

/-- The additivity invariant exactly as claim C1 states it, as an executable
check: the grand total equals the sum of the daily totals, every daily total
equals the sum of its projects' totals, and every project total equals the
sum of its tasks' hours. -/
def checkClaimC1 (s : ActivityRangeSummary) : Bool :=
  decide (s.grandTotal.hours = sumHours (s.dailySummaries.map (·.dailyTotal.hours))) &&
  s.dailySummaries.all (fun day =>
    decide (day.dailyTotal.hours = sumHours (day.projects.map (·.projectTotal.hours))) &&
    day.projects.all (fun p =>
      decide (p.projectTotal.hours = sumHours (p.tasks.map (·.hours)))))

/-- The leaf (task) total that claim C6 talks about: total hours recorded in
`s` under date `d`, project `pid`, task `tid` (summing over all matching
nodes, which in a well-formed summary is the single leaf). -/
def taskLeafTotal (s : ActivityRangeSummary) (d : String) (pid tid : ℤ) : ℚ :=
  sumHours (((s.dailySummaries.filter (fun day => day.date = d)).map
    (fun day => sumHours ((day.projects.filter (fun p => p.projectId = pid)).map
      (fun p => sumHours ((p.tasks.filter (fun t => t.taskId = tid)).map (·.hours)))))))

/-- `UserPresence` (src/types/mocoTypes.ts), restricted to the fields the
aggregation reads; `fromTime`/`toTime` are the source's `from`/`to`
(renamed because `from` is a Lean keyword), with the optional `to` as an
`Option`. -/
structure UserPresence where
  date : String
  fromTime : String
  toTime : Option String
deriving DecidableEq

/-- `DailyPresenceSummary` (src/types/mocoTypes.ts). -/
structure DailyPresenceSummary where
  date : String
  totalHours : ℚ
  totalHoursFormatted : String
deriving DecidableEq

/-- `PresenceRangeSummary` (src/types/mocoTypes.ts). -/
structure PresenceRangeSummary where
  startDate : String
  endDate : String
  dailySummaries : List DailyPresenceSummary
  grandTotal : TimeFormat
deriving DecidableEq

/-- The completion filter of `createDailyPresenceSummary` (presence tools
line 104): JS truthiness of `presence.from && presence.to` — both times
present and non-empty. -/
def completedPresence (p : UserPresence) : Bool :=
  (p.fromTime ≠ "") && (match p.toTime with | none => false | some t => t ≠ "")

/-- `calculateHoursFromTimes` (presence tools lines 121-140): split each
`"HH:MM"` on `':'`, convert the first two fields to numbers, and return the
difference in hours, wrapping by 24×60 minutes when the end is numerically
before the start.  `none` models the JS NaN result on malformed input. -/
def calculateHoursFromTimes (fromTime toTime : String) : Option ℚ :=
  match (fromTime.splitOn ":").map String.toNat?,
        (toTime.splitOn ":").map String.toNat? with
  | some fromHours :: some fromMinutes :: _, some toHours :: some toMinutes :: _ =>
    let fromTotalMinutes : ℤ := fromHours * 60 + fromMinutes
    let toTotalMinutes : ℤ := toHours * 60 + toMinutes
    let diffMinutes : ℤ :=
      if fromTotalMinutes ≤ toTotalMinutes then toTotalMinutes - fromTotalMinutes
      else (24 * 60) - fromTotalMinutes + toTotalMinutes
    some ((diffMinutes : ℚ) / 60)
  | _, _ => none

/-- `createDailyPresenceSummary` (presence tools lines 101-116): keep only
completed presences, sum their spans, and attach the rounded and formatted
totals. -/
def createDailyPresenceSummary (date : String) (presences : List UserPresence) :
    Option DailyPresenceSummary := do
  let completedPresences := presences.filter completedPresence
  let hoursList ← mapMO
    (fun p => calculateHoursFromTimes p.fromTime (p.toTime.getD "")) completedPresences
  let totalHours := hoursList.foldl (· + ·) 0
  let tf ← (createTimeFormat totalHours).toOption
  pure ⟨date, roundHours totalHours, tf.hoursFormatted⟩

/-- `aggregatePresences` (presence tools lines 64-96): group by date, build
the daily summaries in ascending date order, and attach the grand total. -/
def aggregatePresences (presences : List UserPresence) (startDate endDate : String) :
    Option PresenceRangeSummary := do
  let presencesByDate := groupByDate UserPresence.date presences
  let sortedDates := sortStrings (JsMap.keys presencesByDate)
  let dailySummaries ← mapMO
    (fun date => createDailyPresenceSummary date ((JsMap.get presencesByDate date).getD []))
    sortedDates
  let grandTotalHours := sumHours (dailySummaries.map (·.totalHours))
  let grandTotal ← (createTimeFormat grandTotalHours).toOption
  pure ⟨startDate, endDate, dailySummaries, grandTotal⟩

/-- The statistics block of `formatPresencesSummary` (presence tools lines
163-172): emitted only when there is at least one daily summary;
`workingDays` is the number of daily summaries and the average is
`roundHours (grandTotal.hours / workingDays)`. -/
def presenceStatistics (summary : PresenceRangeSummary) : Option (ℕ × ℚ) :=
  if summary.dailySummaries.length > 0 then
    let workingDays := summary.dailySummaries.length
    some (workingDays, roundHours (summary.grandTotal.hours / workingDays))
  else none

/-- Number of distinct dates carrying at least one qualifying (completed)
presence record — the quantity claim C7 says `workingDays` equals. -/
def distinctQualifyingDates (presences : List UserPresence) : ℕ :=
  ((presences.filter completedPresence).map (·.date)).toFinset.card

/-- Number of distinct dates carrying at least one presence record of any
kind — the quantity the code actually reports as `workingDays`. -/
def distinctDates (presences : List UserPresence) : ℕ :=
  (presences.map (·.date)).toFinset.card

/-- `UserHoliday` (src/types/mocoTypes.ts), restricted to the fields the
claims need. -/
structure UserHoliday where
  date : String
  hours : ℚ
deriving DecidableEq

/-- The failure taxonomy of the fetch collaborator (spec §6), keyed to the
messages `handleMocoApiError`/`createHttpErrorMessage`
(src/utils/errorHandler.ts) produce for each kind. -/
inductive ApiFailure where
  | notFound
  | rateLimited
  | authFailed
  | serverError
  | networkError
  | invalidParameters
deriving DecidableEq

/-- The message `handleMocoApiError` (src/utils/errorHandler.ts) attaches to
each failure kind: HTTP 404, 429, 401, 5xx, network failure, HTTP 400. -/
def failureMessage : ApiFailure → String
  | .notFound => "Resource not found. Please check the provided IDs."
  | .rateLimited => "API limit reached. Please try again in a few seconds."
  | .authFailed => "API authentication failed. Please check MOCO_API_KEY."
  | .serverError => "MoCo server error. Please try again later."
  | .networkError => "Network error accessing MoCo API. Please check your internet connection."
  | .invalidParameters => "Invalid parameters. Please check your inputs."

/-- Whether `pat` starts the character list `s`. -/
def charsStartWith : List Char → List Char → Bool
  | [], _ => true
  | _ :: _, [] => false
  | a :: as, b :: bs => a = b && charsStartWith as bs

/-- Whether `pat` occurs as a contiguous run inside `s`. -/
def charsContain (s pat : List Char) : Bool :=
  charsStartWith pat s ||
    match s with
    | [] => false
    | _ :: rest => charsContain rest pat

/-- JS `String.prototype.includes`. -/
def strIncludes (s pat : String) : Bool := charsContain s.data pat.data

/-- `MocoApiService.getUserHolidays` (mocoApi service lines 804-818):
given the outcome of the `/users/holidays` fetch, turn an error whose
message includes `'Resource not found'` into an empty result and re-throw
every other error. -/
def getUserHolidays (fetchResult : Except ApiFailure (List UserHoliday)) :
    Except ApiFailure (List UserHoliday) :=
  match fetchResult with
  | .ok holidays => .ok holidays
  | .error e =>
    if strIncludes (failureMessage e) "Resource not found" then .ok []
    else .error e

/-- Whether an `Except` computation succeeded (i.e. the source function
returned normally instead of throwing). -/
def isOk {e a : Type} : Except e a → Bool
  | .ok _ => true
  | .error _ => false

/-- Input refuting claim C1 at the project level: a single record whose
hours need more than two decimal places. -/
def cxTinyActivity : List Activity :=
  [⟨"2024-01-15", 1 / 1000, 1, "Project A", 2, "Task A", ⟩]

/-- Scenario A input (spec §8): two records on one date, same project,
two tasks. -/
def scenarioARecords : List Activity :=
  [⟨"2024-01-15", 4.5, 123, "P123", 456, "T456"⟩,
   ⟨"2024-01-15", 3.25, 123, "P123", 789, "T789"⟩]

/-- A single open presence (no end time) — the input refuting claim C7's
qualifying-record reading of `workingDays`. -/
def cxOpenPresence : List UserPresence :=
  [⟨"2024-01-15", "09:00", none⟩]

/-- Relation used to invert `createDailySummary`: how one entry of the inner
task map corresponds to one `TaskActivitySummary`. -/
def taskRel (te : ℤ × TaskAcc) (t : TaskActivitySummary) : Prop :=
  t.taskId = te.1 ∧ t.hours = te.2.hours

/-- Relation used to invert `createDailySummary`: how one entry of
`projectsMap` corresponds to one `ProjectActivitySummary`. -/
def projRel (pe : ℤ × ProjAcc) (p : ProjectActivitySummary) : Prop :=
  p.projectId = pe.1 ∧
  p.projectTotal.hours = roundHours (sumHours (p.tasks.map (·.hours))) ∧
  List.Forall₂ taskRel pe.2.tasks p.tasks

/-- Well-formedness of the `createDailySummary` accumulator: distinct
project keys, and distinct task keys inside every project entry. -/
def dailyAccWF (m : List (ℤ × ProjAcc)) : Prop :=
  (JsMap.keys m).Nodup ∧ ∀ pe ∈ m, (JsMap.keys pe.2.tasks).Nodup

/-- Hours accumulated for project `pid`, task `tid` in the
`createDailySummary` accumulator. -/
def accTaskHours (m : List (ℤ × ProjAcc)) (pid tid : ℤ) : ℚ :=
  match JsMap.get m pid with
  | none => 0
  | some p =>
    match JsMap.get p.tasks tid with
    | none => 0
    | some t => t.hours

/-- The summary `aggregateActivities` produces for Scenario A. -/
def scenarioASummary : ActivityRangeSummary :=
  ⟨"2024-01-15", "2024-01-15",
    [⟨"2024-01-15",
      [⟨123, "P123",
        [⟨456, "T456", 4.5, "4:30"⟩, ⟨789, "T789", 3.25, "3:15"⟩],
        ⟨7.75, "7:45"⟩⟩],
      ⟨7.75, "7:45"⟩⟩],
    [⟨123, "P123", ⟨7.75, "7:45"⟩,
      [⟨456, "T456", ⟨4.5, "4:30"⟩⟩, ⟨789, "T789", ⟨3.25, "3:15"⟩⟩]⟩],
    ⟨7.75, "7:45"⟩⟩

/-- The summary `aggregatePresences` produces for Scenario B. -/
def scenarioBSummary : PresenceRangeSummary :=
  ⟨"2024-01-15", "2024-01-15", [⟨"2024-01-15", 8.5, "8:30"⟩], ⟨8.5, "8:30"⟩⟩

/-- Scenario B input (spec §8): one completed presence 09:00-17:30. -/
def scenarioBPresence : List UserPresence :=
  [⟨"2024-01-15", "09:00", some "17:30"⟩]


/-! ### Helper lemmas -/

theorem createTimeFormat_ok {h : ℚ} {tf : TimeFormat} :
    createTimeFormat h = .ok tf ↔
      tf.hours = roundHours h ∧ formatHoursToHHMM h = .ok tf.hoursFormatted := by
  cases tf with
  | mk hh ss =>
    cases hf : formatHoursToHHMM h with
    | error e => simp [createTimeFormat, hf, Bind.bind, Except.bind]
    | ok s =>
      simp only [createTimeFormat, hf, Bind.bind, Except.bind, pure, Except.pure,
        Except.ok.injEq, TimeFormat.mk.injEq]
      constructor
      · rintro ⟨h1, h2⟩; exact ⟨h1.symm, h2⟩
      · rintro ⟨h1, h2⟩; exact ⟨h1.symm, h2⟩

/-! ### JsMap lemmas -/

theorem JsMap.get_nil {K V : Type} [DecidableEq K] (k : K) :
    JsMap.get ([] : List (K × V)) k = none := rfl

theorem JsMap.get_cons {K V : Type} [DecidableEq K] (p : K × V) (m : List (K × V)) (k : K) :
    JsMap.get (p :: m) k = if p.1 = k then some p.2 else JsMap.get m k := by
  simp only [JsMap.get, List.find?]
  by_cases h : p.1 = k
  · simp [h]
  · simp [h]

theorem JsMap.get_map_update_self {K V : Type} [DecidableEq K]
    {m : List (K × V)} {k : K} {w : V} (v : V) (h : JsMap.get m k = some w) :
    JsMap.get (m.map (fun p => if p.1 = k then (k, v) else p)) k = some v := by
  induction m with
  | nil => simp [JsMap.get] at h
  | cons p m ih =>
    rw [JsMap.get_cons] at h
    by_cases hp : p.1 = k
    · simp only [List.map_cons, if_pos hp]
      rw [JsMap.get_cons]
      simp
    · rw [if_neg hp] at h
      simp only [List.map_cons, if_neg hp]
      rw [JsMap.get_cons, if_neg hp]
      exact ih h

theorem JsMap.get_map_update_ne {K V : Type} [DecidableEq K]
    {m : List (K × V)} {k k' : K} (v : V) (h : k' ≠ k) :
    JsMap.get (m.map (fun p => if p.1 = k then (k, v) else p)) k' = JsMap.get m k' := by
  induction m with
  | nil => rfl
  | cons p m ih =>
    by_cases hp : p.1 = k
    · simp only [List.map_cons, if_pos hp]
      rw [JsMap.get_cons, JsMap.get_cons,
        if_neg (show ¬((k, v).1 = k') from fun hh => h hh.symm),
        if_neg (show ¬(p.1 = k') from by rw [hp]; exact fun hh => h hh.symm)]
      exact ih
    · simp only [List.map_cons, if_neg hp]
      rw [JsMap.get_cons, JsMap.get_cons]
      by_cases hk : p.1 = k' <;> simp [hk, ih]

theorem JsMap.get_append_singleton_self {K V : Type} [DecidableEq K] {m : List (K × V)}
    {k : K} (v : V) (h : JsMap.get m k = none) :
    JsMap.get (m ++ [(k, v)]) k = some v := by
  induction m with
  | nil =>
    rw [List.nil_append, JsMap.get_cons]
    simp
  | cons p m ih =>
    rw [JsMap.get_cons] at h
    by_cases hp : p.1 = k
    · rw [if_pos hp] at h; exact absurd h (by simp)
    · rw [if_neg hp] at h
      rw [List.cons_append, JsMap.get_cons, if_neg hp]
      exact ih h

theorem JsMap.get_append_singleton_ne {K V : Type} [DecidableEq K] {m : List (K × V)}
    {k k' : K} (v : V) (h : k' ≠ k) :
    JsMap.get (m ++ [(k, v)]) k' = JsMap.get m k' := by
  induction m with
  | nil =>
    rw [List.nil_append, JsMap.get_cons,
      if_neg (show ¬((k, v).1 = k') from fun hh => h hh.symm)]
  | cons p m ih =>
    rw [List.cons_append, JsMap.get_cons, JsMap.get_cons]
    by_cases hp : p.1 = k' <;> simp [hp, ih]

theorem JsMap.get_set_self {K V : Type} [DecidableEq K] (m : List (K × V)) (k : K) (v : V) :
    JsMap.get (JsMap.set m k v) k = some v := by
  unfold JsMap.set
  cases hg : JsMap.get m k with
  | none =>
    rw [if_neg (by simp [hg])]
    exact JsMap.get_append_singleton_self v hg
  | some w =>
    rw [if_pos (by simp [hg])]
    exact JsMap.get_map_update_self v hg

theorem JsMap.get_set_ne {K V : Type} [DecidableEq K] (m : List (K × V)) {k k' : K} (v : V)
    (h : k' ≠ k) : JsMap.get (JsMap.set m k v) k' = JsMap.get m k' := by
  unfold JsMap.set
  split_ifs with hs
  · exact JsMap.get_map_update_ne v h
  · exact JsMap.get_append_singleton_ne v h

theorem JsMap.get_set_ne₂ {K V : Type} [DecidableEq K] {m : List (K × V)} {k k' : K}
    {v : V} (h : k' ≠ k) : JsMap.get (JsMap.set m k v) k' = JsMap.get m k' :=
  JsMap.get_set_ne m v h

theorem JsMap.keys_map_update {K V : Type} [DecidableEq K] (m : List (K × V)) (k : K) (v : V) :
    JsMap.keys (m.map (fun p => if p.1 = k then (k, v) else p)) = JsMap.keys m := by
  unfold JsMap.keys
  rw [List.map_map]
  apply List.map_congr_left
  intro p _
  by_cases h : p.1 = k <;> simp [h]

theorem JsMap.keys_set {K V : Type} [DecidableEq K] (m : List (K × V)) (k : K) (v : V) :
    JsMap.keys (JsMap.set m k v) =
      if (JsMap.get m k).isSome then JsMap.keys m else JsMap.keys m ++ [k] := by
  unfold JsMap.set
  split_ifs with hs
  · exact JsMap.keys_map_update m k v
  · simp [JsMap.keys]

theorem JsMap.isSome_get_iff {K V : Type} [DecidableEq K] {m : List (K × V)} {k : K} :
    (JsMap.get m k).isSome ↔ k ∈ JsMap.keys m := by
  induction m with
  | nil => simp [JsMap.get, JsMap.keys]
  | cons p m ih =>
    rw [JsMap.get_cons]
    unfold JsMap.keys at ih ⊢
    by_cases hp : p.1 = k
    · simp [hp]
    · rw [if_neg hp, List.map_cons, List.mem_cons, ih]
      constructor
      · exact Or.inr
      · rintro (h | h)
        · exact absurd h.symm hp
        · exact h

theorem JsMap.get_eq_none_iff {K V : Type} [DecidableEq K] {m : List (K × V)} {k : K} :
    JsMap.get m k = none ↔ k ∉ JsMap.keys m := by
  rw [← JsMap.isSome_get_iff]
  cases JsMap.get m k <;> simp

theorem JsMap.nodup_keys_set {K V : Type} [DecidableEq K] {m : List (K × V)} {k : K} (v : V)
    (h : (JsMap.keys m).Nodup) : (JsMap.keys (JsMap.set m k v)).Nodup := by
  rw [JsMap.keys_set]
  split_ifs with hs
  · exact h
  · have hk : k ∉ JsMap.keys m := by
      rw [← JsMap.get_eq_none_iff]
      exact Option.not_isSome_iff_eq_none.mp hs
    simp [List.nodup_append, h, hk]

theorem JsMap.mem_set {K V : Type} [DecidableEq K] {m : List (K × V)} {k : K} {v : V}
    {p : K × V} (h : p ∈ JsMap.set m k v) : p = (k, v) ∨ p ∈ m := by
  unfold JsMap.set at h
  split_ifs at h with hs
  · obtain ⟨q, hq, hqe⟩ := List.mem_map.mp h
    by_cases hq1 : q.1 = k
    · left; rw [← hqe, if_pos hq1]
    · right; rw [← hqe, if_neg hq1]; exact hq
  · rcases List.mem_append.mp h with h | h
    · right; exact h
    · left; simpa using h

theorem JsMap.filter_key_eq_nil {K V : Type} [DecidableEq K] {m : List (K × V)} {k : K}
    (h : JsMap.get m k = none) : m.filter (fun p => p.1 = k) = [] := by
  have hk := JsMap.get_eq_none_iff.mp h
  rw [List.filter_eq_nil_iff]
  intro p hp hpk
  exact hk (List.mem_map.mpr ⟨p, hp, by simpa using hpk⟩)

theorem JsMap.filter_key_eq_singleton {K V : Type} [DecidableEq K] {m : List (K × V)}
    {k : K} {v : V} (hnd : (JsMap.keys m).Nodup) (h : JsMap.get m k = some v) :
    m.filter (fun p => p.1 = k) = [(k, v)] := by
  induction m with
  | nil => simp [JsMap.get] at h
  | cons p m ih =>
    have hndk : p.1 ∉ JsMap.keys m ∧ (JsMap.keys m).Nodup := by
      simpa [JsMap.keys] using hnd
    rw [JsMap.get_cons] at h
    by_cases hp : p.1 = k
    · rw [if_pos hp] at h
      injection h with h
      have hpv : p = (k, v) := by
        cases p with
        | mk a b => simp only [Prod.mk.injEq]; exact ⟨hp, h⟩
      have hk : k ∉ JsMap.keys m := hp ▸ hndk.1
      rw [List.filter_cons_of_pos (by simp [hp]),
        JsMap.filter_key_eq_nil (JsMap.get_eq_none_iff.mpr hk), hpv]
    · rw [if_neg hp] at h
      rw [List.filter_cons_of_neg (by simp [hp])]
      exact ih hndk.2 h

/-! ### Summation lemmas -/

theorem foldl_add_eq (l : List ℚ) (a : ℚ) :
    l.foldl (· + ·) a = a + l.foldl (· + ·) 0 := by
  induction l generalizing a with
  | nil => simp
  | cons x l ih =>
    simp only [List.foldl_cons]
    rw [ih (a + x), ih (0 + x)]
    ring

theorem sumHours_nil : sumHours [] = 0 := rfl

theorem sumHours_cons (x : ℚ) (l : List ℚ) : sumHours (x :: l) = x + sumHours l := by
  unfold sumHours
  simp only [List.foldl_cons]
  rw [foldl_add_eq, zero_add]

theorem sumHours_append (l₁ l₂ : List ℚ) :
    sumHours (l₁ ++ l₂) = sumHours l₁ + sumHours l₂ := by
  induction l₁ with
  | nil => simp [sumHours]
  | cons x l ih =>
    rw [List.cons_append, sumHours_cons, sumHours_cons, ih]
    ring

theorem roundHours_of_cent {q : ℚ} (h : ∃ z : ℤ, q = (z : ℚ) / 100) : roundHours q = q := by
  obtain ⟨z, rfl⟩ := h
  unfold roundHours jsRound
  have h1 : (z : ℚ) / 100 * 100 = (z : ℚ) := by field_simp
  rw [h1]
  have h2 : ⌊(z : ℚ) + 1 / 2⌋ = z := by
    rw [add_comm, Int.floor_add_int]
    norm_num
  rw [h2]

theorem roundHours_cent (q : ℚ) : ∃ z : ℤ, roundHours q = (z : ℚ) / 100 :=
  ⟨jsRound (q * 100), rfl⟩

theorem sumHours_cent {l : List ℚ} (h : ∀ q ∈ l, ∃ z : ℤ, q = (z : ℚ) / 100) :
    ∃ z : ℤ, sumHours l = (z : ℚ) / 100 := by
  induction l with
  | nil => exact ⟨0, by simp [sumHours]⟩
  | cons x l ih =>
    obtain ⟨z1, hz1⟩ := h x (by simp)
    obtain ⟨z2, hz2⟩ := ih (fun q hq => h q (by simp [hq]))
    refine ⟨z1 + z2, ?_⟩
    rw [sumHours_cons, hz1, hz2]
    push_cast
    ring

/-! ### Monad plumbing lemmas -/

theorem except_bind_ok {e a b : Type} {x : Except e a} {f : a → Except e b} {y : b} :
    (x >>= f) = .ok y ↔ ∃ z, x = .ok z ∧ f z = .ok y := by
  cases x <;> simp [Bind.bind, Except.bind]

theorem mapME_ok_iff {a b : Type} {f : a → Except String b} {l : List a} {ys : List b} :
    mapME f l = .ok ys ↔ List.Forall₂ (fun x y => f x = .ok y) l ys := by
  induction l generalizing ys with
  | nil =>
    constructor
    · intro h
      injection h with h
      rw [← h]
      exact List.Forall₂.nil
    · intro h
      cases h
      rfl
  | cons x xs ih =>
    constructor
    · intro h
      rw [show mapME f (x :: xs) =
        (f x >>= fun y => mapME f xs >>= fun ys => pure (y :: ys)) from rfl] at h
      obtain ⟨y, hy, h⟩ := except_bind_ok.mp h
      obtain ⟨zs, hzs, h⟩ := except_bind_ok.mp h
      simp only [pure, Except.pure, Except.ok.injEq] at h
      rw [← h]
      exact List.Forall₂.cons hy (ih.mp hzs)
    · intro h
      cases h with
      | cons hxy hrest =>
        rw [show mapME f (x :: xs) =
          (f x >>= fun y => mapME f xs >>= fun ys => pure (y :: ys)) from rfl]
        rw [hxy, ih.mpr hrest]
        rfl

theorem mapMO_some_iff {a b : Type} {f : a → Option b} {l : List a} {ys : List b} :
    mapMO f l = some ys ↔ List.Forall₂ (fun x y => f x = some y) l ys := by
  induction l generalizing ys with
  | nil =>
    constructor
    · intro h
      injection h with h
      rw [← h]
      exact List.Forall₂.nil
    · intro h
      cases h
      rfl
  | cons x xs ih =>
    constructor
    · intro h
      rw [show mapMO f (x :: xs) =
        (f x >>= fun y => mapMO f xs >>= fun ys => pure (y :: ys)) from rfl] at h
      obtain ⟨y, hy, h⟩ := Option.bind_eq_some.mp h
      obtain ⟨zs, hzs, h⟩ := Option.bind_eq_some.mp h
      simp only [pure, Option.some.injEq] at h
      rw [← h]
      exact List.Forall₂.cons hy (ih.mp hzs)
    · intro h
      cases h with
      | cons hxy hrest =>
        rw [show mapMO f (x :: xs) =
          (f x >>= fun y => mapMO f xs >>= fun ys => pure (y :: ys)) from rfl]
        rw [hxy, ih.mpr hrest]
        rfl

theorem forall₂_mem_right {a b : Type} {R : a → b → Prop} {xs : List a} {ys : List b}
    (h : List.Forall₂ R xs ys) {y : b} (hy : y ∈ ys) : ∃ x ∈ xs, R x y := by
  induction h with
  | nil => cases hy
  | cons hR hrest ih =>
    rcases List.mem_cons.mp hy with rfl | hy₂
    · exact ⟨_, by simp, hR⟩
    · obtain ⟨x, hx, hxR⟩ := ih hy₂
      exact ⟨x, by simp [hx], hxR⟩

theorem sumHours_filter_map_congr {a b : Type} {R : a → b → Prop} {xs : List a} {ys : List b}
    (h : List.Forall₂ R xs ys) (p : a → Bool) (q : b → Bool) (f : a → ℚ) (g : b → ℚ)
    (hpq : ∀ x y, R x y → p x = q y) (hfg : ∀ x y, R x y → p x = true → f x = g y) :
    sumHours ((xs.filter p).map f) = sumHours ((ys.filter q).map g) := by
  induction h with
  | nil => rfl
  | cons hR hrest ih =>
    rename_i x y xs₂ ys₂
    by_cases hp : p x = true
    · rw [List.filter_cons_of_pos hp, List.filter_cons_of_pos (by rw [← hpq _ _ hR]; exact hp),
        List.map_cons, List.map_cons, sumHours_cons, sumHours_cons, hfg _ _ hR hp, ih]
    · rw [List.filter_cons_of_neg (by simpa using hp),
        List.filter_cons_of_neg (by rw [← hpq _ _ hR]; simpa using hp)]
      exact ih

/-! ### Sorting lemmas -/

theorem insertSorted_perm (x : String) (l : List String) :
    (insertSorted x l).Perm (x :: l) := by
  induction l with
  | nil => exact List.Perm.refl _
  | cons y ys ih =>
    unfold insertSorted
    split_ifs
    · exact List.Perm.refl _
    · exact (ih.cons y).trans (List.Perm.swap x y ys)

theorem sortStrings_perm (l : List String) : (sortStrings l).Perm l := by
  induction l with
  | nil => exact List.Perm.refl _
  | cons x xs ih =>
    exact (insertSorted_perm x (sortStrings xs)).trans (ih.cons x)

theorem filter_eq_self_of_nodup {l : List String} {d : String} (h : l.Nodup) :
    l.filter (fun x => x = d) = if d ∈ l then [d] else [] := by
  induction l with
  | nil => simp
  | cons x xs ih =>
    have hnd := List.nodup_cons.mp h
    by_cases hx : x = d
    · subst hx
      rw [List.filter_cons_of_pos (by simp), if_pos (by simp)]
      have hnil : xs.filter (fun y => y = x) = [] := by
        rw [List.filter_eq_nil_iff]
        intro y hy hyx
        have he : y = x := of_decide_eq_true hyx
        exact hnd.1 (he ▸ hy)
      rw [hnil]
    · rw [List.filter_cons_of_neg (by simp [hx]), ih hnd.2]
      by_cases hd : d ∈ xs
      · rw [if_pos hd, if_pos (by simp [hd])]
      · rw [if_neg hd, if_neg (by
          simp only [List.mem_cons, not_or]
          exact ⟨fun hh => hx hh.symm, hd⟩)]

/-! ### Grouping lemmas -/

theorem get_groupStep {a : Type} (key : a → String) (m : List (String × List a)) (r : a)
    (d : String) :
    JsMap.get (groupStep key m r) d =
      if key r = d then some ((JsMap.get m (key r)).getD [] ++ [r]) else JsMap.get m d := by
  unfold groupStep
  cases hg : JsMap.get m (key r) with
  | some items =>
    rw [if_pos (by simp [hg])]
    simp only [hg]
    by_cases hd : key r = d
    · subst hd
      rw [JsMap.get_set_self, if_pos rfl]
      simp [hg]
    · rw [JsMap.get_set_ne _ _ (fun hh => hd hh.symm), if_neg hd]
  | none =>
    rw [if_neg (by simp [hg])]
    have h1 : JsMap.get (JsMap.set m (key r) ([] : List a)) (key r) = some [] :=
      JsMap.get_set_self m (key r) []
    simp only [h1]
    by_cases hd : key r = d
    · subst hd
      rw [JsMap.get_set_self, if_pos rfl]
      simp [hg]
    · rw [JsMap.get_set_ne _ _ (fun hh => hd hh.symm),
        JsMap.get_set_ne _ _ (fun hh => hd hh.symm), if_neg hd]

theorem getD_foldl_groupStep {a : Type} (key : a → String) (l : List a)
    (m : List (String × List a)) (d : String) :
    (JsMap.get (l.foldl (groupStep key) m) d).getD [] =
      (JsMap.get m d).getD [] ++ l.filter (fun r => key r = d) := by
  induction l generalizing m with
  | nil => simp
  | cons r rs ih =>
    rw [List.foldl_cons, ih]
    by_cases hd : key r = d
    · rw [get_groupStep, if_pos hd, List.filter_cons_of_pos (by simp [hd])]
      subst hd
      rw [Option.getD_some, List.append_assoc, List.singleton_append]
    · rw [get_groupStep, if_neg hd, List.filter_cons_of_neg (by simp [hd])]

theorem keys_groupStep {a : Type} (key : a → String) (m : List (String × List a)) (r : a) :
    JsMap.keys (groupStep key m r) =
      if key r ∈ JsMap.keys m then JsMap.keys m else JsMap.keys m ++ [key r] := by
  unfold groupStep
  cases hg : JsMap.get m (key r) with
  | some items =>
    have hmem : key r ∈ JsMap.keys m := JsMap.isSome_get_iff.mp (by simp [hg])
    rw [if_pos (by simp [hg])]
    simp only [hg]
    rw [JsMap.keys_set, if_pos (by simp [hg]), if_pos hmem]
  | none =>
    have hmem : key r ∉ JsMap.keys m := JsMap.get_eq_none_iff.mp hg
    rw [if_neg (by simp [hg]), if_neg hmem]
    have h1 : JsMap.get (JsMap.set m (key r) ([] : List a)) (key r) = some [] :=
      JsMap.get_set_self m (key r) []
    simp only [h1]
    rw [JsMap.keys_set, if_pos (by simp [h1]), JsMap.keys_set, if_neg (by simp [hg])]

theorem mem_keys_foldl_groupStep {a : Type} (key : a → String) (l : List a)
    (m : List (String × List a)) (d : String) :
    d ∈ JsMap.keys (l.foldl (groupStep key) m) ↔
      d ∈ JsMap.keys m ∨ ∃ r ∈ l, key r = d := by
  induction l generalizing m with
  | nil => simp
  | cons r rs ih =>
    rw [List.foldl_cons, ih, keys_groupStep]
    by_cases hm : key r ∈ JsMap.keys m
    · rw [if_pos hm]
      constructor
      · rintro (h | ⟨r₂, hr₂, hk⟩)
        · exact Or.inl h
        · exact Or.inr ⟨r₂, by simp [hr₂], hk⟩
      · rintro (h | ⟨r₂, hr₂, hk⟩)
        · exact Or.inl h
        · rcases List.mem_cons.mp hr₂ with rfl | hr₃
          · exact Or.inl (hk ▸ hm)
          · exact Or.inr ⟨r₂, hr₃, hk⟩
    · rw [if_neg hm]
      constructor
      · rintro (h | ⟨r₂, hr₂, hk⟩)
        · rcases List.mem_append.mp h with h | h
          · exact Or.inl h
          · exact Or.inr ⟨r, by simp, (List.mem_singleton.mp h).symm⟩
        · exact Or.inr ⟨r₂, by simp [hr₂], hk⟩
      · rintro (h | ⟨r₂, hr₂, hk⟩)
        · exact Or.inl (List.mem_append.mpr (Or.inl h))
        · rcases List.mem_cons.mp hr₂ with rfl | hr₃
          · exact Or.inl (List.mem_append.mpr (Or.inr (by simp [hk])))
          · exact Or.inr ⟨r₂, hr₃, hk⟩

theorem nodup_keys_foldl_groupStep {a : Type} (key : a → String) (l : List a)
    (m : List (String × List a)) (h : (JsMap.keys m).Nodup) :
    (JsMap.keys (l.foldl (groupStep key) m)).Nodup := by
  induction l generalizing m with
  | nil => exact h
  | cons r rs ih =>
    rw [List.foldl_cons]
    apply ih
    rw [keys_groupStep]
    split_ifs with hm
    · exact h
    · simp [List.nodup_append, h, hm]

theorem getD_groupByDate {a : Type} (key : a → String) (l : List a) (d : String) :
    (JsMap.get (groupByDate key l) d).getD [] = l.filter (fun r => key r = d) := by
  unfold groupByDate
  rw [getD_foldl_groupStep]
  rfl

theorem mem_keys_groupByDate {a : Type} (key : a → String) (l : List a) (d : String) :
    d ∈ JsMap.keys (groupByDate key l) ↔ ∃ r ∈ l, key r = d := by
  unfold groupByDate
  rw [mem_keys_foldl_groupStep]
  simp [JsMap.keys]

theorem nodup_keys_groupByDate {a : Type} (key : a → String) (l : List a) :
    (JsMap.keys (groupByDate key l)).Nodup := by
  unfold groupByDate
  exact nodup_keys_foldl_groupStep key l [] (by simp [JsMap.keys])

/-! ### Daily-summary inversion lemmas -/

theorem JsMap.get_mem {K V : Type} [DecidableEq K] {m : List (K × V)} {k : K} {v : V}
    (h : JsMap.get m k = some v) : (k, v) ∈ m := by
  induction m with
  | nil => simp [JsMap.get] at h
  | cons p m ih =>
    rw [JsMap.get_cons] at h
    by_cases hp : p.1 = k
    · rw [if_pos hp] at h
      injection h with h
      refine List.mem_cons.mpr (Or.inl ?_)
      cases p with
      | mk a b => simp only [Prod.mk.injEq]; exact ⟨hp.symm, h.symm⟩
    · rw [if_neg hp] at h
      exact List.mem_cons_of_mem p (ih h)

theorem createDailySummary_ok {date : String} {acts : List Activity}
    {day : DailyActivitySummary} (h : createDailySummary date acts = .ok day) :
    day.date = date ∧
    List.Forall₂ projRel (acts.foldl dailyStep []) day.projects ∧
    day.dailyTotal.hours = roundHours (sumHours (day.projects.map (·.projectTotal.hours))) := by
  unfold createDailySummary at h
  obtain ⟨projects, hp, h⟩ := except_bind_ok.mp h
  obtain ⟨dailyTotal, hdt, h⟩ := except_bind_ok.mp h
  simp only [pure, Except.pure, Except.ok.injEq] at h
  subst h
  refine ⟨rfl, List.Forall₂.imp ?_ (mapME_ok_iff.mp hp), (createTimeFormat_ok.mp hdt).1⟩
  intro pe p hin
  obtain ⟨tasks, htasks, hin⟩ := except_bind_ok.mp hin
  obtain ⟨pt, hpt, hin⟩ := except_bind_ok.mp hin
  simp only [pure, Except.pure, Except.ok.injEq] at hin
  subst hin
  refine ⟨rfl, (createTimeFormat_ok.mp hpt).1, ?_⟩
  refine List.Forall₂.imp ?_ (mapME_ok_iff.mp htasks)
  intro te t htin
  obtain ⟨tf, _, htin⟩ := except_bind_ok.mp htin
  simp only [pure, Except.pure, Except.ok.injEq] at htin
  subst htin
  exact ⟨rfl, rfl⟩

/-! ### Accumulator lemmas for the daily grouping -/

theorem accTaskHours_dailyStep (m : List (ℤ × ProjAcc)) (a : Activity) (pid tid : ℤ) :
    accTaskHours (dailyStep m a) pid tid =
      accTaskHours m pid tid +
        (if a.projectId = pid ∧ a.taskId = tid then a.hours else 0) := by
  unfold dailyStep
  cases hg : JsMap.get m a.projectId with
  | some project =>
    simp only [hg, Option.isSome_some, if_true]
    cases ht : JsMap.get project.tasks a.taskId with
    | some t =>
      simp only [ht, Option.isSome_some, if_true]
      by_cases hpid : a.projectId = pid
      · subst hpid
        by_cases htid : a.taskId = tid
        · subst htid
          simp only [accTaskHours, JsMap.get_set_self, hg, ht, and_self, if_true]
        · simp only [accTaskHours, JsMap.get_set_self, hg,
            JsMap.get_set_ne₂ (show tid ≠ a.taskId from fun hh => htid hh.symm)]
          split_ifs with hcond
          · exact absurd hcond.2 htid
          · rw [add_zero]
      · simp only [accTaskHours,
          JsMap.get_set_ne₂ (show pid ≠ a.projectId from fun hh => hpid hh.symm)]
        split_ifs with hcond
        · exact absurd hcond.1 hpid
        · rw [add_zero]
    | none =>
      simp only [ht, Option.isSome_none, Bool.false_eq_true, if_false, JsMap.get_set_self]
      by_cases hpid : a.projectId = pid
      · subst hpid
        by_cases htid : a.taskId = tid
        · subst htid
          simp only [accTaskHours, JsMap.get_set_self, hg, ht, and_self, if_true, zero_add]
        · simp only [accTaskHours, JsMap.get_set_self, hg, ht,
            JsMap.get_set_ne₂ (show tid ≠ a.taskId from fun hh => htid hh.symm)]
          split_ifs with hcond
          · exact absurd hcond.2 htid
          · rw [add_zero]
      · simp only [accTaskHours,
          JsMap.get_set_ne₂ (show pid ≠ a.projectId from fun hh => hpid hh.symm)]
        split_ifs with hcond
        · exact absurd hcond.1 hpid
        · rw [add_zero]
  | none =>
    simp only [hg, Option.isSome_none, Bool.false_eq_true, if_false, JsMap.get_set_self,
      JsMap.get_nil]
    by_cases hpid : a.projectId = pid
    · subst hpid
      by_cases htid : a.taskId = tid
      · subst htid
        simp only [accTaskHours, JsMap.get_set_self, hg, and_self, if_true, zero_add]
      · simp only [accTaskHours, JsMap.get_set_self, hg,
          JsMap.get_set_ne₂ (show tid ≠ a.taskId from fun hh => htid hh.symm),
          JsMap.get_nil]
        split_ifs with hcond
        · exact absurd hcond.2 htid
        · rw [add_zero]
    · simp only [accTaskHours,
        JsMap.get_set_ne₂ (show pid ≠ a.projectId from fun hh => hpid hh.symm)]
      split_ifs with hcond
      · exact absurd hcond.1 hpid
      · rw [add_zero]

theorem accTaskHours_foldl (l : List Activity) (m : List (ℤ × ProjAcc)) (pid tid : ℤ) :
    accTaskHours (l.foldl dailyStep m) pid tid =
      accTaskHours m pid tid +
        sumHours ((l.filter (fun a => a.projectId = pid ∧ a.taskId = tid)).map (·.hours)) := by
  induction l generalizing m with
  | nil => simp [sumHours]
  | cons a l ih =>
    rw [List.foldl_cons, ih, accTaskHours_dailyStep]
    by_cases hc : a.projectId = pid ∧ a.taskId = tid
    · rw [if_pos hc, List.filter_cons_of_pos (by simp [hc.1, hc.2]), List.map_cons, sumHours_cons]
      ring
    · rw [if_neg hc, List.filter_cons_of_neg (by simpa using hc), add_zero]

theorem dailyAccWF_dailyStep {m : List (ℤ × ProjAcc)} (a : Activity) (h : dailyAccWF m) :
    dailyAccWF (dailyStep m a) := by
  obtain ⟨hnd, hin⟩ := h
  unfold dailyStep
  cases hg0 : JsMap.get m a.projectId with
  | some project =>
    simp only [hg0, Option.isSome_some, if_true]
    have hproj : (JsMap.keys project.tasks).Nodup :=
      hin (a.projectId, project) (JsMap.get_mem hg0)
    cases ht0 : JsMap.get project.tasks a.taskId with
    | some t =>
      simp only [ht0, Option.isSome_some, if_true]
      refine ⟨?_, ?_⟩
      · rw [JsMap.keys_set, if_pos (by simp [hg0])]
        exact hnd
      · intro pe hpe
        rcases JsMap.mem_set hpe with rfl | hpe₂
        · exact JsMap.nodup_keys_set _ hproj
        · exact hin pe hpe₂
    | none =>
      simp only [ht0, Option.isSome_none, Bool.false_eq_true, if_false, JsMap.get_set_self]
      refine ⟨?_, ?_⟩
      · rw [JsMap.keys_set, if_pos (by simp [hg0])]
        exact hnd
      · intro pe hpe
        rcases JsMap.mem_set hpe with rfl | hpe₂
        · exact JsMap.nodup_keys_set _ (JsMap.nodup_keys_set _ hproj)
        · exact hin pe hpe₂
  | none =>
    simp only [hg0, Option.isSome_none, Bool.false_eq_true, if_false, JsMap.get_set_self,
      JsMap.get_nil]
    have hnd1 : (JsMap.keys (JsMap.set m a.projectId
        (⟨a.projectName, []⟩ : ProjAcc))).Nodup :=
      JsMap.nodup_keys_set _ hnd
    refine ⟨?_, ?_⟩
    · rw [JsMap.keys_set, if_pos (by simp [JsMap.get_set_self])]
      exact hnd1
    · intro pe hpe
      rcases JsMap.mem_set hpe with rfl | hpe₂
      · exact JsMap.nodup_keys_set _ (JsMap.nodup_keys_set _ (by simp [JsMap.keys]))
      · rcases JsMap.mem_set hpe₂ with rfl | hpe₃
        · simp [JsMap.keys]
        · exact hin pe hpe₃

theorem dailyAccWF_foldl (l : List Activity) (m : List (ℤ × ProjAcc)) (h : dailyAccWF m) :
    dailyAccWF (l.foldl dailyStep m) := by
  induction l generalizing m with
  | nil => exact h
  | cons a l ih => exact ih _ (dailyAccWF_dailyStep a h)

theorem taskSum_day {m : List (ℤ × ProjAcc)} {projects : List ProjectActivitySummary}
    (hwf : dailyAccWF m) (hrel : List.Forall₂ projRel m projects) (pid tid : ℤ) :
    sumHours ((projects.filter (fun p => p.projectId = pid)).map
      (fun p => sumHours ((p.tasks.filter (fun t => t.taskId = tid)).map (·.hours)))) =
    accTaskHours m pid tid := by
  have hstep := sumHours_filter_map_congr hrel
    (fun pe => pe.1 = pid) (fun p => p.projectId = pid)
    (fun pe => sumHours ((pe.2.tasks.filter (fun te => te.1 = tid)).map (fun te => te.2.hours)))
    (fun p => sumHours ((p.tasks.filter (fun t => t.taskId = tid)).map (·.hours)))
    (fun pe p hr => by simp only [hr.1])
    (fun pe p hr _ => sumHours_filter_map_congr hr.2.2
      (fun te => te.1 = tid) (fun t => t.taskId = tid)
      (fun te => te.2.hours) (·.hours)
      (fun te t htr => by simp only [htr.1])
      (fun te t htr _ => htr.2.symm))
  rw [← hstep]
  cases hg : JsMap.get m pid with
  | none =>
    simp only [JsMap.filter_key_eq_nil hg, accTaskHours, hg, List.map_nil, sumHours_nil]
  | some pa =>
    simp only [JsMap.filter_key_eq_singleton hwf.1 hg, accTaskHours, hg,
      List.map_cons, List.map_nil, sumHours_cons, sumHours_nil, add_zero]
    cases ht : JsMap.get pa.tasks tid with
    | none =>
      simp only [JsMap.filter_key_eq_nil ht, ht, List.map_nil, sumHours_nil]
    | some t =>
      have hndt : (JsMap.keys pa.tasks).Nodup := hwf.2 (pid, pa) (JsMap.get_mem hg)
      simp only [JsMap.filter_key_eq_singleton hndt ht, ht, List.map_cons, List.map_nil,
        sumHours_cons, sumHours_nil, add_zero]

/-! ### Claim theorems: time representation -/

/-- C3: `roundHours` is standard half-up rounding to 2 decimal places —
its value times 100 is an integer, it lies within the half-up window of the
input, and the claim's two sample points evaluate as stated. -/
theorem claim3_roundHours_half_up (h : ℚ) (hnn : 0 ≤ h) :
    roundHours h * 100 = (⌊roundHours h * 100⌋ : ℚ) ∧
    roundHours h - 1 / 200 ≤ h ∧ h < roundHours h + 1 / 200 ∧
    roundHours (1.234567 : ℚ) = 1.23 ∧ roundHours (1.235 : ℚ) = 1.24 := by
  have hmul : roundHours h * 100 = (jsRound (h * 100) : ℚ) := by
    unfold roundHours
    field_simp
  have h1 : (jsRound (h * 100) : ℚ) ≤ h * 100 + 1 / 2 := Int.floor_le _
  have h2 : h * 100 + 1 / 2 < jsRound (h * 100) + 1 := Int.lt_floor_add_one _
  refine ⟨?_, ?_, ?_, by with_unfolding_all decide, by with_unfolding_all decide⟩
  · rw [hmul, Int.floor_intCast]
  · have : roundHours h = (jsRound (h * 100) : ℚ) / 100 := rfl
    rw [this]; linarith
  · have : roundHours h = (jsRound (h * 100) : ℚ) / 100 := rfl
    rw [this]; linarith

/-- C3 witness: the half-up characterisation instantiated at 1.235. -/
theorem claim3_witness :
    0 ≤ (1.235 : ℚ) ∧
    (roundHours (1.235 : ℚ) * 100 = (⌊roundHours (1.235 : ℚ) * 100⌋ : ℚ) ∧
     roundHours (1.235 : ℚ) - 1 / 200 ≤ (1.235 : ℚ) ∧
     (1.235 : ℚ) < roundHours (1.235 : ℚ) + 1 / 200 ∧
     roundHours (1.234567 : ℚ) = 1.23 ∧ roundHours (1.235 : ℚ) = 1.24) :=
  ⟨by norm_num, claim3_roundHours_half_up (1.235 : ℚ) (by norm_num)⟩

/-- C4: `formatHoursToHHMM` computes exactly the spec's clock-format
algorithm on non-negative input, and yields the claimed strings on the
sample points (including the 1.9999 carry). -/
theorem claim4_clock_format :
    (∀ h : ℚ, 0 ≤ h → formatHoursToHHMM h = .ok (toClockStringSpec h)) ∧
    formatHoursToHHMM (0 : ℚ) = .ok "0:00" ∧
    formatHoursToHHMM (1 : ℚ) = .ok "1:00" ∧
    formatHoursToHHMM (1.5 : ℚ) = .ok "1:30" ∧
    formatHoursToHHMM (2.25 : ℚ) = .ok "2:15" ∧
    formatHoursToHHMM (8.75 : ℚ) = .ok "8:45" ∧
    formatHoursToHHMM (10.1 : ℚ) = .ok "10:06" ∧
    formatHoursToHHMM (1.9999 : ℚ) = .ok "2:00" := by
  refine ⟨?_, by with_unfolding_all decide, by with_unfolding_all decide,
    by with_unfolding_all decide, by with_unfolding_all decide,
    by with_unfolding_all decide, by with_unfolding_all decide,
    by with_unfolding_all decide⟩
  intro h h0
  have hnl : ¬ h < 0 := not_lt.mpr h0
  simp only [formatHoursToHHMM, toClockStringSpec, if_neg hnl]
  split_ifs with hm
  · have hz : (":" ++ padStart2 (toString (0 : ℤ)) : String) = ":00" := by
      with_unfolding_all decide
    rw [String.append_assoc, hz]
  · rfl

/-- C4 witness: the refinement equality instantiated at 10.1 hours. -/
theorem claim4_witness :
    0 ≤ (10.1 : ℚ) ∧ formatHoursToHHMM (10.1 : ℚ) = .ok (toClockStringSpec (10.1 : ℚ)) :=
  ⟨by norm_num, claim4_clock_format.1 (10.1 : ℚ) (by norm_num)⟩

/-- C5: `formatHoursToHHMM` succeeds exactly on non-negative input, and
fails on -1 with the negative-hours error. -/
theorem claim5_negative_input :
    (∀ h : ℚ, isOk (formatHoursToHHMM h) = true ↔ 0 ≤ h) ∧
    formatHoursToHHMM (-1 : ℚ) = .error "Hours cannot be negative" := by
  refine ⟨?_, by with_unfolding_all decide⟩
  intro h
  by_cases h0 : h < 0
  · simp [formatHoursToHHMM, if_pos h0, isOk, not_le.mpr h0]
  · simp only [formatHoursToHHMM, if_neg h0]
    split_ifs <;> simp [isOk, not_lt.mp h0]

/-- C2 (amended): the stored pair always carries the clock rendering of the
original input, and when the input already has at most two decimal places
(`roundHours h = h`) the stored rounded hours re-format to the stored clock
string. -/
theorem claim2_canonical_amended (h : ℚ) (tf : TimeFormat)
    (hnn : 0 ≤ h) (hok : createTimeFormat h = .ok tf) :
    tf.hours = roundHours h ∧ formatHoursToHHMM h = .ok tf.hoursFormatted ∧
    (roundHours h = h → formatHoursToHHMM tf.hours = .ok tf.hoursFormatted) := by
  obtain ⟨h1, h2⟩ := createTimeFormat_ok.mp hok
  exact ⟨h1, h2, fun hfix => by rw [h1, hfix]; exact h2⟩

/-- C2 counterexample: at 1.0083 hours the constructed pair stores rounded
hours 1.01 next to the clock string "1:00", but 1.01 formats to "1:01" —
the stored fields diverge. -/
theorem claim2_counterexample :
    createTimeFormat (1.0083 : ℚ) = .ok ⟨1.01, "1:00"⟩ ∧
    formatHoursToHHMM (1.01 : ℚ) = .ok "1:01" ∧ ("1:00" : String) ≠ "1:01" :=
  ⟨by with_unfolding_all decide, by with_unfolding_all decide, by decide⟩

/-- C2 witness: the amended invariant instantiated at 1.5 hours. -/
theorem claim2_witness :
    (⟨1.5, "1:30"⟩ : TimeFormat).hours = roundHours (1.5 : ℚ) ∧
    formatHoursToHHMM (1.5 : ℚ) = .ok (⟨1.5, "1:30"⟩ : TimeFormat).hoursFormatted ∧
    (roundHours (1.5 : ℚ) = 1.5 →
      formatHoursToHHMM (⟨1.5, "1:30"⟩ : TimeFormat).hours =
        .ok (⟨1.5, "1:30"⟩ : TimeFormat).hoursFormatted) :=
  claim2_canonical_amended 1.5 ⟨1.5, "1:30"⟩ (by norm_num) (by with_unfolding_all decide)

/-! ### Claim theorems: presence time spans and holiday lookup -/

/-- C9: `calculateHoursFromTimes` computes the wrapped minute difference
divided by 60 — without wrap when the end is not before the start, with a
24×60-minute wrap otherwise — and Scenario B evaluates to 8.5 ("8:30"). -/
theorem claim9_time_span (fromTime toTime : String) (fh fm th tm : ℕ)
    (hf : (fromTime.splitOn ":").map String.toNat? = [some fh, some fm])
    (ht : (toTime.splitOn ":").map String.toNat? = [some th, some tm]) :
    ((fh : ℤ) * 60 + fm ≤ (th : ℤ) * 60 + tm →
      calculateHoursFromTimes fromTime toTime =
        some ((((th : ℚ) * 60 + tm) - ((fh : ℚ) * 60 + fm)) / 60)) ∧
    ((th : ℤ) * 60 + tm < (fh : ℤ) * 60 + fm →
      calculateHoursFromTimes fromTime toTime =
        some ((((th : ℚ) * 60 + tm) - ((fh : ℚ) * 60 + fm) + 24 * 60) / 60)) ∧
    calculateHoursFromTimes "09:00" "17:30" = some 8.5 ∧
    createDailyPresenceSummary "2024-01-15" scenarioBPresence =
      some ⟨"2024-01-15", 8.5, "8:30"⟩ := by
  refine ⟨?_, ?_, by with_unfolding_all decide, by with_unfolding_all decide⟩
  · intro hle
    simp only [calculateHoursFromTimes, hf, ht, if_pos hle]
    congr 1
    push_cast
    ring
  · intro hlt
    have : ¬ ((fh : ℤ) * 60 + fm ≤ (th : ℤ) * 60 + tm) := not_le.mpr hlt
    simp only [calculateHoursFromTimes, hf, ht, if_neg this]
    congr 1
    push_cast
    ring

/-- C9 witness: the no-wrap branch instantiated at 09:00 → 17:30. -/
theorem claim9_witness :
    ("09:00".splitOn ":").map String.toNat? = [some 9, some 0] ∧
    ("17:30".splitOn ":").map String.toNat? = [some 17, some 30] ∧
    calculateHoursFromTimes "09:00" "17:30" =
      some ((((17 : ℚ) * 60 + 30) - ((9 : ℚ) * 60 + 0)) / 60) :=
  ⟨by with_unfolding_all decide, by with_unfolding_all decide,
    (claim9_time_span "09:00" "17:30" 9 0 17 30
      (by with_unfolding_all decide) (by with_unfolding_all decide)).1 (by decide)⟩

/-- C10: a `NotFound` failure of the holiday-entitlement fetch is converted
to an empty result, every other failure kind is re-raised unchanged, and a
successful fetch passes through. -/
theorem claim10_not_found_tolerance (e : ApiFailure) (hne : e ≠ ApiFailure.notFound) :
    getUserHolidays (.error ApiFailure.notFound) = .ok [] ∧
    getUserHolidays (.error e) = .error e ∧
    (∀ hs : List UserHoliday, getUserHolidays (.ok hs) = .ok hs) := by
  refine ⟨by with_unfolding_all decide, ?_, fun hs => rfl⟩
  cases e with
  | notFound => exact absurd rfl hne
  | rateLimited => with_unfolding_all decide
  | authFailed => with_unfolding_all decide
  | serverError => with_unfolding_all decide
  | networkError => with_unfolding_all decide
  | invalidParameters => with_unfolding_all decide

/-- C10 witness: the tolerance theorem instantiated at a rate-limit error. -/
theorem claim10_witness :
    ApiFailure.rateLimited ≠ ApiFailure.notFound ∧
    getUserHolidays (.error ApiFailure.rateLimited) = .error ApiFailure.rateLimited :=
  ⟨by decide, (claim10_not_found_tolerance ApiFailure.rateLimited (by decide)).2.1⟩




/-! ### Aggregate inversion -/

theorem aggregateActivities_ok {activities : List Activity} {sd ed : String}
    {s : ActivityRangeSummary} (h : aggregateActivities activities sd ed = .ok s) :
    List.Forall₂ (fun date day => createDailySummary date
        ((JsMap.get (groupByDate Activity.date activities) date).getD []) = .ok day)
      (sortStrings (JsMap.keys (groupByDate Activity.date activities))) s.dailySummaries ∧
    s.grandTotal.hours = roundHours (sumHours (s.dailySummaries.map (·.dailyTotal.hours))) := by
  unfold aggregateActivities at h
  obtain ⟨ds, hds, h⟩ := except_bind_ok.mp h
  obtain ⟨pt, hpt, h⟩ := except_bind_ok.mp h
  obtain ⟨gt, hgt, h⟩ := except_bind_ok.mp h
  simp only [pure, Except.pure, Except.ok.injEq] at h
  subst h
  exact ⟨mapME_ok_iff.mp hds, (createTimeFormat_ok.mp hgt).1⟩

theorem aggregatePresences_some {ps : List UserPresence} {sd ed : String}
    {s : PresenceRangeSummary} (h : aggregatePresences ps sd ed = some s) :
    List.Forall₂ (fun date ds => createDailyPresenceSummary date
        ((JsMap.get (groupByDate UserPresence.date ps) date).getD []) = some ds)
      (sortStrings (JsMap.keys (groupByDate UserPresence.date ps))) s.dailySummaries := by
  unfold aggregatePresences at h
  obtain ⟨ds, hds, h⟩ := Option.bind_eq_some.mp h
  obtain ⟨gt, hgt, h⟩ := Option.bind_eq_some.mp h
  simp only [pure, Option.some.injEq] at h
  subst h
  exact mapMO_some_iff.mp hds

/-! ### Claim theorems: aggregation -/

/-- C1 (amended): every run of `aggregateActivities` satisfies exact
additivity at the range level (grand total = sum of daily totals) and at the
day level (daily total = sum of project totals), while each project total
equals `roundHours` of the sum of its tasks' hours — exact equality at the
project level holds only when that sum needs at most two decimals. -/
theorem claim1_additivity_amended (activities : List Activity) (sd ed : String)
    (s : ActivityRangeSummary) (h : aggregateActivities activities sd ed = .ok s) :
    s.grandTotal.hours = sumHours (s.dailySummaries.map (·.dailyTotal.hours)) ∧
    (∀ day ∈ s.dailySummaries,
      day.dailyTotal.hours = sumHours (day.projects.map (·.projectTotal.hours))) ∧
    (∀ day ∈ s.dailySummaries, ∀ p ∈ day.projects,
      p.projectTotal.hours = roundHours (sumHours (p.tasks.map (·.hours)))) := by
  obtain ⟨hforall, hgrand⟩ := aggregateActivities_ok h
  have hdayfacts : ∀ day ∈ s.dailySummaries,
      day.dailyTotal.hours = roundHours (sumHours (day.projects.map (·.projectTotal.hours))) ∧
      ∀ p ∈ day.projects, p.projectTotal.hours = roundHours (sumHours (p.tasks.map (·.hours))) := by
    intro day hday
    obtain ⟨date, _, hok⟩ := forall₂_mem_right hforall hday
    have hinv := createDailySummary_ok hok
    refine ⟨hinv.2.2, ?_⟩
    intro p hp
    obtain ⟨pe, _, hrel⟩ := forall₂_mem_right hinv.2.1 hp
    exact hrel.2.1
  refine ⟨?_, ?_, fun day hday => (hdayfacts day hday).2⟩
  · rw [hgrand]
    apply roundHours_of_cent
    apply sumHours_cent
    intro q hq
    obtain ⟨day, hday, rfl⟩ := List.mem_map.mp hq
    rw [(hdayfacts day hday).1]
    exact roundHours_cent _
  · intro day hday
    rw [(hdayfacts day hday).1]
    apply roundHours_of_cent
    apply sumHours_cent
    intro q hq
    obtain ⟨p, hp, rfl⟩ := List.mem_map.mp hq
    rw [(hdayfacts day hday).2 p hp]
    exact roundHours_cent _

/-- C1 counterexample: on a single record of 0.001 hours the invariant as
claimed — every node's total equals the sum of its children — evaluates to
false (the project total is rounded to 0 while the task sum is 0.001). -/
theorem claim1_counterexample :
    (aggregateActivities cxTinyActivity "2024-01-15" "2024-01-15").map checkClaimC1 =
      .ok false := by
  with_unfolding_all decide

/-- C1 witness: the amended additivity instantiated on the Scenario A run. -/
theorem claim1_witness :
    scenarioASummary.grandTotal.hours =
        sumHours (scenarioASummary.dailySummaries.map (·.dailyTotal.hours)) ∧
    (∀ day ∈ scenarioASummary.dailySummaries,
      day.dailyTotal.hours = sumHours (day.projects.map (·.projectTotal.hours))) ∧
    (∀ day ∈ scenarioASummary.dailySummaries, ∀ p ∈ day.projects,
      p.projectTotal.hours = roundHours (sumHours (p.tasks.map (·.hours)))) :=
  claim1_additivity_amended scenarioARecords "2024-01-15" "2024-01-15" scenarioASummary
    (by with_unfolding_all decide)

/-- C6: in every successful run of `aggregateActivities`, the leaf total
recorded under a given date, project and task equals the sum of the hours of
exactly the input records carrying that date, project and task — every
record contributes once, nothing is overwritten or deduplicated — and the
Scenario A run produces daily, project and grand totals of 7.75 ("7:45"). -/
theorem claim6_additive_accumulation (activities : List Activity) (sd ed : String)
    (s : ActivityRangeSummary) (h : aggregateActivities activities sd ed = .ok s)
    (d : String) (pid tid : ℤ) :
    taskLeafTotal s d pid tid =
      sumHours ((activities.filter
        (fun a => a.date = d ∧ a.projectId = pid ∧ a.taskId = tid)).map (·.hours)) ∧
    (aggregateActivities scenarioARecords "2024-01-15" "2024-01-15").map
        (fun t => t.grandTotal) = .ok ⟨7.75, "7:45"⟩ ∧
    (aggregateActivities scenarioARecords "2024-01-15" "2024-01-15").map
        (fun t => t.dailySummaries.map (fun day => day.dailyTotal)) = .ok [⟨7.75, "7:45"⟩] ∧
    (aggregateActivities scenarioARecords "2024-01-15" "2024-01-15").map
        (fun t => t.dailySummaries.map (fun day => day.projects.map
          (fun pr => pr.projectTotal))) = .ok [[⟨7.75, "7:45"⟩]] := by
  refine ⟨?_, by with_unfolding_all decide, by with_unfolding_all decide,
    by with_unfolding_all decide⟩
  obtain ⟨hforall, _⟩ := aggregateActivities_ok h
  have hfa : List.Forall₂ (fun date day => day.date = date ∧
      sumHours ((day.projects.filter (fun p => p.projectId = pid)).map
        (fun p => sumHours ((p.tasks.filter (fun t => t.taskId = tid)).map (·.hours)))) =
      sumHours ((((JsMap.get (groupByDate Activity.date activities) date).getD []).filter
        (fun a => a.projectId = pid ∧ a.taskId = tid)).map (·.hours)))
      (sortStrings (JsMap.keys (groupByDate Activity.date activities))) s.dailySummaries := by
    refine List.Forall₂.imp ?_ hforall
    intro date day hok
    have hinv := createDailySummary_ok hok
    refine ⟨hinv.1, ?_⟩
    have hwf : dailyAccWF (((JsMap.get (groupByDate Activity.date activities) date).getD
        []).foldl dailyStep []) :=
      dailyAccWF_foldl _ [] ⟨by simp [JsMap.keys], by simp⟩
    rw [taskSum_day hwf hinv.2.1 pid tid, accTaskHours_foldl]
    simp [accTaskHours, JsMap.get_nil]
  unfold taskLeafTotal
  have hconv := sumHours_filter_map_congr hfa
    (fun date => date = d) (fun day => day.date = d)
    (fun date => sumHours ((((JsMap.get (groupByDate Activity.date activities) date).getD
      []).filter (fun a => a.projectId = pid ∧ a.taskId = tid)).map (·.hours)))
    (fun day => sumHours ((day.projects.filter (fun p => p.projectId = pid)).map
      (fun p => sumHours ((p.tasks.filter (fun t => t.taskId = tid)).map (·.hours)))))
    (fun date day hr => by simp only [hr.1])
    (fun date day hr _ => hr.2.symm)
  rw [← hconv]
  have hnd : (sortStrings (JsMap.keys (groupByDate Activity.date activities))).Nodup :=
    (sortStrings_perm _).nodup_iff.mpr (nodup_keys_groupByDate _ _)
  rw [filter_eq_self_of_nodup hnd]
  by_cases hd : d ∈ sortStrings (JsMap.keys (groupByDate Activity.date activities))
  · rw [if_pos hd, List.map_cons, List.map_nil, sumHours_cons, sumHours_nil, add_zero,
      getD_groupByDate, List.filter_filter]
    congr 1
    congr 1
    apply List.filter_congr
    intro a _
    by_cases h1 : a.date = d <;> by_cases h2 : a.projectId = pid ∧ a.taskId = tid <;>
      simp [h1, h2]
  · rw [if_neg hd]
    have hnone : activities.filter
        (fun a => a.date = d ∧ a.projectId = pid ∧ a.taskId = tid) = [] := by
      rw [List.filter_eq_nil_iff]
      intro a ha hcond
      have hc := of_decide_eq_true hcond
      apply hd
      rw [List.Perm.mem_iff (sortStrings_perm _), mem_keys_groupByDate]
      exact ⟨a, ha, hc.1⟩
    rw [hnone]
    simp [sumHours]

/-- C6 witness: the additive-accumulation equation instantiated on the
Scenario A run at date 2024-01-15, project 123, task 456. -/
theorem claim6_witness :
    taskLeafTotal scenarioASummary "2024-01-15" 123 456 =
      sumHours ((scenarioARecords.filter
        (fun a => a.date = "2024-01-15" ∧ a.projectId = 123 ∧ a.taskId = 456)).map
          (·.hours)) :=
  (claim6_additive_accumulation scenarioARecords "2024-01-15" "2024-01-15" scenarioASummary
    (by with_unfolding_all decide) "2024-01-15" 123 456).1

/-- C7 (amended): in every successful presence aggregation, the statistics
block is omitted exactly when there are no presence records at all;
otherwise `workingDays` is the number of distinct dates carrying at least
one presence record of any kind (qualifying or not), and the average is
`roundHours (grandTotal.hours / workingDays)` — never a division error. -/
theorem claim7_presence_stats_amended (ps : List UserPresence) (sd ed : String)
    (s : PresenceRangeSummary) (h : aggregatePresences ps sd ed = some s) :
    (presenceStatistics s = none ↔ ps = []) ∧
    (∀ wd avg, presenceStatistics s = some (wd, avg) →
      wd = distinctDates ps ∧ avg = roundHours (s.grandTotal.hours / wd)) := by
  have hforall := aggregatePresences_some h
  have hlen : s.dailySummaries.length = distinctDates ps := by
    rw [← List.Forall₂.length_eq hforall,
      (sortStrings_perm (JsMap.keys (groupByDate UserPresence.date ps))).length_eq]
    unfold distinctDates
    rw [← List.toFinset_card_of_nodup (nodup_keys_groupByDate _ _)]
    congr 1
    apply Finset.ext
    intro d
    rw [List.mem_toFinset, List.mem_toFinset, mem_keys_groupByDate, List.mem_map]
  constructor
  · unfold presenceStatistics
    split_ifs with hpos
    · constructor
      · intro hc
        exact absurd hc (by simp)
      · intro hps
        subst hps
        rw [hlen] at hpos
        simp [distinctDates] at hpos
    · constructor
      · intro _
        have hlen0 : s.dailySummaries.length = 0 := by omega
        rw [hlen] at hlen0
        unfold distinctDates at hlen0
        rcases ps with _ | ⟨r, rs⟩
        · rfl
        · exfalso
          rw [Finset.card_eq_zero] at hlen0
          have hmem : r.date ∈ ((r :: rs).map (·.date)).toFinset := by simp
          rw [hlen0] at hmem
          exact absurd hmem (Finset.not_mem_empty _)
      · intro _
        rfl
  · intro wd avg hst
    unfold presenceStatistics at hst
    split_ifs at hst with hpos
    · simp only [Option.some.injEq, Prod.mk.injEq] at hst
      obtain ⟨h1, h2⟩ := hst
      exact ⟨h1 ▸ hlen, by rw [← h2, h1]⟩

/-- C7 counterexample: a single open presence (no end time) makes the code
report `workingDays = 1` while the number of distinct dates with a
qualifying (completed) record is 0 — the claimed equality evaluates false. -/
theorem claim7_counterexample :
    (aggregatePresences cxOpenPresence "2024-01-15" "2024-01-15").map
        (fun s => (presenceStatistics s).map
          (fun st => decide (st.1 = distinctQualifyingDates cxOpenPresence))) =
      some (some false) := by
  with_unfolding_all decide

/-- C7 witness: the amended statistics theorem instantiated on the
Scenario B run. -/
theorem claim7_witness :
    (presenceStatistics scenarioBSummary = none ↔ scenarioBPresence = []) ∧
    (∀ wd avg, presenceStatistics scenarioBSummary = some (wd, avg) →
      wd = distinctDates scenarioBPresence ∧
      avg = roundHours (scenarioBSummary.grandTotal.hours / wd)) :=
  claim7_presence_stats_amended scenarioBPresence "2024-01-15" "2024-01-15" scenarioBSummary
    (by with_unfolding_all decide)

/-- C8: only completed presences contribute to a day's total — filtering
the incomplete records away changes nothing, and appending a record with no
end time leaves the daily summary unchanged (it is not a zero-hour entry and
not a failure). -/
theorem claim8_open_presences (date : String) (ps : List UserPresence) (p : UserPresence)
    (hp : p.toTime = none) :
    createDailyPresenceSummary date (ps.filter completedPresence) =
      createDailyPresenceSummary date ps ∧
    createDailyPresenceSummary date (ps ++ [p]) = createDailyPresenceSummary date ps := by
  have hnc : completedPresence p = false := by
    simp [completedPresence, hp]
  constructor
  · unfold createDailyPresenceSummary
    rw [List.filter_filter]
    have hff : (ps.filter (fun a => completedPresence a && completedPresence a)) =
        ps.filter completedPresence := by
      apply List.filter_congr
      intro a _
      exact Bool.and_self _
    rw [hff]
  · unfold createDailyPresenceSummary
    rw [List.filter_append]
    have hfp : List.filter completedPresence [p] = [] := by simp [hnc]
    rw [hfp, List.append_nil]

/-- C8 witness: exclusion of an open presence instantiated on Scenario B
plus one open record. -/
theorem claim8_witness :
    (⟨"2024-01-15", "09:00", none⟩ : UserPresence).toTime = none ∧
    (createDailyPresenceSummary "2024-01-15" (scenarioBPresence.filter completedPresence) =
        createDailyPresenceSummary "2024-01-15" scenarioBPresence ∧
      createDailyPresenceSummary "2024-01-15"
          (scenarioBPresence ++ [⟨"2024-01-15", "09:00", none⟩]) =
        createDailyPresenceSummary "2024-01-15" scenarioBPresence) :=
  ⟨rfl, claim8_open_presences "2024-01-15" scenarioBPresence ⟨"2024-01-15", "09:00", none⟩ rfl⟩

end Moco
